import Mathlib

/-!
Subscriber registry, event dispatch and daily trigger of `main.go`.

A shallow embedding of the Go program `src/main.go` (a Telegram bot that keeps a list of
subscriber chat ids in `users.txt` and broadcasts a schedule at 10:00 local time).

Modelling conventions:

* `int64` identifiers are `Int`; the predicate `isInt64` carves out the machine range where a
  statement depends on it (only the decimal parser has a range check).
* The file `users.txt` is `Option (List String)`: `none` when the file does not exist,
  `some lines` for its lines in order (what `bufio.Scanner` yields and `Fprintln` appends).
  The scanner's maximal token size is not modelled; every line the program writes is at most
  twenty characters long.
* Library calls are modelled from their Go implementation: `fmt.Fprintln` of an `int64`
  (`formatInt64`), `fmt.Sscanf(line, "%d", &v)` (`Sscanf_d`, built from `skipSpace`,
  `scanNumber`, `ParseUint`, `ParseInt`, `scanInt`).
* The outside world is a parameter: `Env.send` is the result of `bot.Send`, `Env.schedule`
  the text returned by `getJohnWickSchedule`, `Env.appendOk` whether `os.OpenFile` succeeds.
* Wall-clock time is a natural number of seconds of local time; `Hour`, `Minute` and
  `dateOf` read it the way `time.Time` does on a clock without zone changes.
-/

namespace TgBot

/-! ## Decimal formatting: `fmt.Fprintln(writer, userID)` -/

/-- The byte `'0' + d`. -/
def digitChar (d : Nat) : Char := Char.ofNat (48 + d)

/-- The digit loop of Go's integer formatting, `for u >= 10 { buf[i] = '0' + u%10; u /= 10 }`
followed by the last digit; `acc` is the part of the buffer already written. The first
argument bounds the number of iterations (`u + 1` always suffices). -/
def fmtUnsigned : Nat → Nat → List Char → List Char
  | 0, _, acc => acc
  | fuel + 1, u, acc =>
    if u < 10 then digitChar u :: acc
    else fmtUnsigned fuel (u / 10) (digitChar (u % 10) :: acc)

/-- The line `fmt.Fprintln` writes for an integer (without the newline): the decimal digits
of the absolute value, preceded by `-` when negative. -/
def formatInt64 (v : Int) : String :=
  if v < 0 then String.mk ('-' :: fmtUnsigned (v.natAbs + 1) v.natAbs [])
  else String.mk (fmtUnsigned (v.natAbs + 1) v.natAbs [])

/-- The range of Go's `int64`. -/
def isInt64 (v : Int) : Prop := -(2 : Int) ^ 63 ≤ v ∧ v < (2 : Int) ^ 63

instance (v : Int) : Decidable (isInt64 v) := by unfold isInt64; infer_instance

/-! ## Decimal scanning: `fmt.Sscanf(line, "%d", &userID)` -/

/-- The table `space` of package `fmt` (`isSpace`). -/
def isSpace (c : Char) : Bool :=
  let r := c.toNat
  (0x0009 ≤ r && r ≤ 0x000d) || r == 0x0020 || r == 0x0085 || r == 0x00a0 || r == 0x1680
    || (0x2000 ≤ r && r ≤ 0x200a) || (0x2028 ≤ r && r ≤ 0x2029) || r == 0x202f
    || r == 0x205f || r == 0x3000

/-- The method `ss.SkipSpace` with `nlIsSpace = false` (as `Sscanf` sets it): spaces are
consumed, a newline is the error "unexpected newline" (`none`). -/
def skipSpace : List Char → Option (List Char)
  | [] => some []
  | c :: cs =>
    if c = '\n' then none
    else if isSpace c then skipSpace cs
    else some (c :: cs)

/-- Membership in the digit set `"0123456789"` that `getBase` returns for the verb `d`. -/
def isDecimalDigit (c : Char) : Bool :=
  48 ≤ c.toNat && c.toNat ≤ 57

/-- The method `ss.scanNumber`: at least one accepted character is required
("expected integer" otherwise), then the maximal run of accepted characters is the token. -/
def scanNumber (cs : List Char) : Option (List Char) :=
  match cs.takeWhile isDecimalDigit with
  | [] => none
  | tok => some tok

/-- The digit loop of `strconv.ParseUint` in base 10: any character that is not a decimal
digit is a syntax error. -/
def parseDigits : List Char → Nat → Option Nat
  | [], n => some n
  | c :: cs, n =>
    if 48 ≤ c.toNat ∧ c.toNat ≤ 57 then parseDigits cs (n * 10 + (c.toNat - 48)) else none

/-- The function `strconv.ParseUint(s, 10, 64)`, with every error as `none`: the empty
string and a bad character are syntax errors, a value of `2^64` or more is a range error. -/
def ParseUint (s : List Char) : Option Nat :=
  match s with
  | [] => none
  | _ =>
    match parseDigits s 0 with
    | none => none
    | some n => if n < 2 ^ 64 then some n else none

/-- The function `strconv.ParseInt(s, 10, 64)`, with every error as `none`: one leading sign
is stripped, the rest goes through `ParseUint`, and the value must fit `int64`. -/
def ParseInt (s : List Char) : Option Int :=
  match s with
  | [] => none
  | c :: rest =>
    let neg : Bool := c == '-'
    let body := if c = '+' ∨ c = '-' then rest else c :: rest
    match ParseUint body with
    | none => none
    | some un =>
      if neg = false ∧ 2 ^ 63 ≤ un then none
      else if neg = true ∧ 2 ^ 63 < un then none
      else some (if neg then -(un : Int) else (un : Int))

/-- The method `ss.scanInt` for the verb `d` and 64 bits: skip spaces, fail at the end of
input, accept one sign, scan the number token and hand sign and token to `ParseInt`. -/
def scanInt (cs : List Char) : Option Int :=
  match skipSpace cs with
  | none => none
  | some [] => none
  | some (c :: rest) =>
    if c = '+' ∨ c = '-' then
      match scanNumber rest with
      | none => none
      | some tok => ParseInt (c :: tok)
    else
      match scanNumber (c :: rest) with
      | none => none
      | some tok => ParseInt tok

/-- The value of `userID` after `fmt.Sscanf(line, "%d", &userID)`, whose results the caller
ignores: `doScanf` skips spaces and runs `scanInt`; when scanning fails nothing is stored and
the variable keeps the value it had. -/
def Sscanf_d (line : String) (userID : Int) : Int :=
  match skipSpace line.data with
  | none => userID
  | some cs =>
    match scanInt cs with
    | none => userID
    | some v => v

/-! ## The process state -/

/-- The lines the program writes with `log.Println` and `log.Printf`. -/
inductive LogLine
  | usersFileNotFound
  | usersFileOpenError
  | usersLoaded (ids : List Int)
  | userAdded (id : Int)
  | sendError
  | sentToAll
  | received (chatID : Int) (text : String)
  | currentTime (hour minute : Nat)
  | dataSent
  deriving DecidableEq, Repr

/-- The state of the process and of what it owns: the global `userIDs`, the file
`users.txt`, the calls of `bot.Send` made so far (chat id and text, oldest first) and the
lines logged so far. -/
structure Proc where
  userIDs : List Int
  file : Option (List String)
  sent : List (Int × String)
  out : List LogLine
  deriving DecidableEq, Repr

/-- What the outside world answers during one call. -/
structure Env where
  send : Int → String → Bool
  schedule : String
  appendOk : Bool

/-- The state of a process that has just started, over a given file. -/
def Proc.start (file : Option (List String)) : Proc := ⟨[], file, [], []⟩

/-- The lines of `users.txt`, none when the file does not exist. -/
def logLines (file : Option (List String)) : List String := file.getD []

/-! ## `loadUsers` and `saveUser` -/

/-- The function `loadUsers`. `readable = false` stands for an `os.Open` error other than
"does not exist". Every scanned line appends the value of `userID` after `Sscanf`. -/
def loadUsers (readable : Bool) (p : Proc) : Proc :=
  match p.file with
  | none => { p with out := p.out ++ [LogLine.usersFileNotFound] }
  | some lines =>
    if readable then
      let ids := lines.foldl (fun acc line => acc ++ [Sscanf_d line 0]) p.userIDs
      { p with userIDs := ids, out := p.out ++ [LogLine.usersLoaded ids] }
    else { p with out := p.out ++ [LogLine.usersFileOpenError] }

/-- The function `saveUser`. `appendOk = false` stands for a failing `os.OpenFile`. -/
def saveUser (appendOk : Bool) (p : Proc) (userID : Int) : Proc :=
  if p.userIDs.any (fun id => id == userID) then p
  else
    let p1 := { p with userIDs := p.userIDs ++ [userID] }
    if appendOk then
      { p1 with
        file := some (logLines p1.file ++ [formatInt64 userID]),
        out := p1.out ++ [LogLine.userAdded userID] }
    else { p1 with out := p1.out ++ [LogLine.usersFileOpenError] }

/-! ## Sending -/

/-- One call of `bot.Send(tgbotapi.NewMessage(chatID, text))`; the result is ignored. -/
def botSend (p : Proc) (chatID : Int) (text : String) : Proc :=
  { p with sent := p.sent ++ [(chatID, text)] }

/-- The body of the loop of `sendTelegramMessage` for one recipient. -/
def sendOne (env : Env) (message : String) (p : Proc) (userID : Int) : Proc :=
  let p1 := botSend p userID message
  if env.send userID message then p1 else { p1 with out := p1.out ++ [LogLine.sendError] }

/-- The function `sendTelegramMessage`: the loop ranges over `userIDs` as it is when the loop
starts. -/
def sendTelegramMessage (env : Env) (p : Proc) (message : String) : Proc :=
  let p1 := p.userIDs.foldl (sendOne env message) p
  { p1 with out := p1.out ++ [LogLine.sentToAll] }

/-! ## Event dispatch -/

/-- The fields of `tgbotapi.Message` the program reads. -/
structure Message where
  chatID : Int
  text : String
  deriving DecidableEq, Repr

/-- The fields of `tgbotapi.CallbackQuery` the program reads; `message` is a pointer that
the API leaves nil for some callbacks. -/
structure CallbackQuery where
  data : String
  message : Option Message
  deriving DecidableEq, Repr

/-- The fields of `tgbotapi.Update` the program reads, both pointers. -/
structure Update where
  message : Option Message
  callbackQuery : Option CallbackQuery
  deriving DecidableEq, Repr

def greetingText : String := "Привет! Я твой бот для расписания Джона Уика. Выбери действие:"
def thanksText : String := "Спасибо за сообщение!"
def subscribedText : String := "Ты теперь подписан на обновления!"
def unsubscribedText : String := "Ты отписан от обновлений!"

/-- The function `handleStart`, called only when `update.Message` is not nil. -/
def handleStart (env : Env) (p : Proc) (m : Message) : Proc :=
  let p1 := saveUser env.appendOk p m.chatID
  let p2 := botSend p1 m.chatID greetingText
  if env.send m.chatID greetingText then p2 else { p2 with out := p2.out ++ [LogLine.sendError] }

/-- The function `handleCallback`; `none` is the nil-pointer panic of
`update.CallbackQuery.Message.Chat.ID` on a callback without message. -/
def handleCallback (env : Env) (p : Proc) (u : Update) : Option Proc :=
  match u.callbackQuery with
  | none => some p
  | some cq =>
    match cq.message with
    | none => none
    | some m =>
      let userID := m.chatID
      if cq.data = "get_schedule" then some (botSend p userID env.schedule)
      else if cq.data = "subscribe" then
        some (botSend (saveUser env.appendOk p userID) userID subscribedText)
      else if cq.data = "unsubscribe" then some (botSend p userID unsubscribedText)
      else some (botSend p userID "")

/-- The body of the loop `for update := range updates` in `main`. -/
def dispatch (env : Env) (p : Proc) (u : Update) : Option Proc :=
  let p1 :=
    match u.message with
    | none => p
    | some m =>
      let q := { p with out := p.out ++ [LogLine.received m.chatID m.text] }
      if m.text = "/start" then handleStart env q m
      else botSend q m.chatID thanksText
  match u.callbackQuery with
  | none => some p1
  | some _ => handleCallback env p1 u

/-! ## The trigger loop -/

/-- The method `now.Hour()`. -/
def Hour (now : Nat) : Nat := now / 3600 % 24

/-- The method `now.Minute()`. -/
def Minute (now : Nat) : Nat := now / 60 % 60

/-- The calendar date of a time, as a day number. -/
def dateOf (now : Nat) : Nat := now / 86400

/-- The condition `now.Hour() == 10 && now.Minute() == 0`. -/
def fires (now : Nat) : Bool := Hour now == 10 && Minute now == 0

/-- One iteration of the loop `for { ... }` of `main` that observes the time `now`: the new
state and the number of seconds the iteration sleeps. -/
def mainIter (env : Env) (p : Proc) (now : Nat) : Proc × Nat :=
  let p1 := { p with out := p.out ++ [LogLine.currentTime (Hour now) (Minute now)] }
  if fires now then
    let p2 := sendTelegramMessage env p1 env.schedule
    ({ p2 with out := p2.out ++ [LogLine.dataSent] }, 61 + 30)
  else (p1, 30)

/-- The iterations of the loop for a given list of observed times. -/
def runTicks (env : Env) (p : Proc) (ticks : List Nat) : Proc :=
  ticks.foldl (fun q now => (mainIter env q now).1) p

/-- The number of completed calls of `sendTelegramMessage`, read off the log: each call
ends with the line "Сообщение отправлено всем пользователям!". -/
def fanOuts (p : Proc) : Nat := p.out.count LogLine.sentToAll

/-- The seconds an iteration at time `now` sleeps before the next one starts. -/
def sleepAfter (now : Nat) : Nat := if fires now then 61 + 30 else 30

/-- Poll times an ideal monotone clock allows: each poll is at least as late as the previous
one plus the sleep of the previous iteration (see `mainIter_sleep`). -/
def idealPolls : List Nat → Bool
  | a :: b :: rest => decide (a + sleepAfter a ≤ b) && idealPolls (b :: rest)
  | _ => true

/-- A wall-clock time of day on a given date. -/
def clock (date hour minute second : Nat) : Nat :=
  date * 86400 + hour * 3600 + minute * 60 + second

/-! ## Sequences of calls, lifecycles and events -/

/-- A decimal digit character. -/
def isDigit (c : Char) : Prop := 48 ≤ c.toNat ∧ c.toNat ≤ 57

/-- The unbounded reading of a written line, used to tell written lines apart. -/
def decodeLine (s : String) : Option Int :=
  match s.data with
  | '-' :: rest =>
    match parseDigits rest 0 with
    | some n => some (-(n : Int))
    | none => none
  | cs =>
    match parseDigits cs 0 with
    | some n => some (n : Int)
    | none => none

/-- The calls `saveUser(id)` for the identifiers of `calls`, in order, every append
succeeding. -/
def addAll (p : Proc) (calls : List Int) : Proc := calls.foldl (saveUser true) p

/-- A restart: a new process over the same file, which runs `loadUsers` on start-up and
can open the file. -/
def restartProc (p : Proc) : Proc := loadUsers true (Proc.start p.file)

/-- The steps of the registry lifecycle: a call of `saveUser` whose append succeeds or
fails, and a restart of the process. -/
inductive Op
  | add (appendOk : Bool) (id : Int)
  | restart
  deriving DecidableEq, Repr

/-- The identifier of a step is an `int64`. -/
def Op.wellTyped : Op → Prop
  | Op.add _ id => isInt64 id
  | Op.restart => True

instance (op : Op) : Decidable op.wellTyped := by
  cases op <;> unfold Op.wellTyped <;> infer_instance

/-- The effect of one lifecycle step. -/
def applyOp (p : Proc) : Op → Proc
  | Op.add appendOk id => saveUser appendOk p id
  | Op.restart => restartProc p

/-- The effect of a sequence of lifecycle steps. -/
def runOps (p : Proc) (ops : List Op) : Proc := ops.foldl applyOp p

/-- What the log holds in every reachable state: the lines written for a duplicate-free
list of `int64` identifiers, all of them registered. -/
def LogInv (p : Proc) : Prop :=
  ∃ ids : List Int, logLines p.file = ids.map formatInt64 ∧ ids.Nodup ∧
    ∀ i ∈ ids, isInt64 i ∧ i ∈ p.userIDs

/-- The two shapes of inbound event: a direct message (sender, text) and a callback
(sender, action). -/
inductive Event
  | directMessage (sender : Int) (text : String)
  | callback (sender : Int) (action : String)
  deriving DecidableEq, Repr

/-- The sender of an event. -/
def Event.sender : Event → Int
  | Event.directMessage s _ => s
  | Event.callback s _ => s

/-- The events the routing table sends to the registry: the text `/start` and the action
`subscribe`. -/
def Event.subscribes : Event → Bool
  | Event.directMessage _ text => text == "/start"
  | Event.callback _ action => action == "subscribe"

/-- The update that carries an event; `origText` is the text of the message a callback
button was attached to, which the program does not read. -/
def Event.toUpdate (origText : String) : Event → Update
  | Event.directMessage s text => ⟨some ⟨s, text⟩, none⟩
  | Event.callback s action => ⟨none, some ⟨action, some ⟨s, origText⟩⟩⟩

/-- A gateway whose sends fail exactly for the chat id `2`. -/
def failsForTwo : Env := ⟨fun chatID _ => chatID != 2, "schedule", true⟩

/-- The poll ticks 09:59, 10:00, 10:00 and 10:01 of one date, thirty seconds apart within
the trigger minute. -/
def scenarioTicks : List Nat :=
  [clock 0 9 59 30, clock 0 10 0 0, clock 0 10 0 30, clock 0 10 1 0]

/-- The registry is duplicate-free and the log holds one line per registered identifier,
in registry order. -/
def Synced (p : Proc) : Prop :=
  p.userIDs.Nodup ∧ logLines p.file = p.userIDs.map formatInt64

/-- Later polls on an ideal clock: not earlier, and at least 91 seconds after a poll that
fired. -/
def laterPoll (a b : Nat) : Prop := a ≤ b ∧ (fires a = true → a + 91 ≤ b)

/-! ## Formatting and scanning are inverse -/

theorem digitChar_toNat (d : Nat) (h : d < 10) : (digitChar d).toNat = 48 + d := by
  interval_cases d <;> rfl

theorem digitChar_isDigit (d : Nat) (h : d < 10) : isDigit (digitChar d) := by
  unfold isDigit
  rw [digitChar_toNat d h]
  omega

theorem parseDigits_cons_digit (c : Char) (cs : List Char) (n : Nat) (h : isDigit c) :
    parseDigits (c :: cs) n = parseDigits cs (n * 10 + (c.toNat - 48)) := by
  have h1 : 48 ≤ c.toNat ∧ c.toNat ≤ 57 := h
  simp only [parseDigits, h1, and_self, if_true]

theorem parseDigits_fmtUnsigned (fuel : Nat) :
    ∀ (u : Nat) (acc : List Char), u < fuel →
      parseDigits (fmtUnsigned fuel u acc) 0 = parseDigits acc u := by
  induction fuel with
  | zero => intro u acc h; omega
  | succ fuel ih =>
    intro u acc h
    unfold fmtUnsigned
    by_cases hu : u < 10
    · simp only [hu, if_true]
      rw [parseDigits_cons_digit _ _ _ (digitChar_isDigit u hu), digitChar_toNat u hu]
      congr 1
      omega
    · simp only [hu, if_false]
      have hm : u % 10 < 10 := Nat.mod_lt _ (by norm_num)
      rw [ih (u / 10) _ (by omega), parseDigits_cons_digit _ _ _ (digitChar_isDigit _ hm),
        digitChar_toNat _ hm]
      congr 1
      omega

theorem fmtUnsigned_digits (fuel : Nat) :
    ∀ (u : Nat) (acc : List Char), (∀ c ∈ acc, isDigit c) →
      ∀ c ∈ fmtUnsigned fuel u acc, isDigit c := by
  induction fuel with
  | zero => intro u acc h; simpa [fmtUnsigned] using h
  | succ fuel ih =>
    intro u acc h
    unfold fmtUnsigned
    by_cases hu : u < 10
    · simp only [hu, if_true]
      intro c hc
      rcases List.mem_cons.1 hc with rfl | hc
      · exact digitChar_isDigit u hu
      · exact h c hc
    · simp only [hu, if_false]
      apply ih
      intro c hc
      rcases List.mem_cons.1 hc with rfl | hc
      · exact digitChar_isDigit _ (Nat.mod_lt _ (by norm_num))
      · exact h c hc

theorem fmtUnsigned_ne_nil (fuel u : Nat) (acc : List Char) :
    fmtUnsigned (fuel + 1) u acc ≠ [] := by
  induction fuel generalizing u acc with
  | zero =>
    unfold fmtUnsigned
    by_cases hu : u < 10 <;> simp [hu, fmtUnsigned]
  | succ fuel ih =>
    unfold fmtUnsigned
    by_cases hu : u < 10
    · simp [hu]
    · simp only [hu, if_false]
      exact ih _ _

theorem isDigit_facts (c : Char) (h : isDigit c) :
    c ≠ '\n' ∧ isSpace c = false ∧ c ≠ '+' ∧ c ≠ '-' ∧ isDecimalDigit c = true := by
  have h1 : 48 ≤ c.toNat ∧ c.toNat ≤ 57 := h
  refine ⟨?_, ?_, ?_, ?_, ?_⟩
  · rintro rfl; revert h1; decide
  · simp only [isSpace, Bool.or_eq_false_iff, Bool.and_eq_false_iff, decide_eq_false_iff_not,
      beq_eq_false_iff_ne, ne_eq]
    omega
  · rintro rfl; revert h1; decide
  · rintro rfl; revert h1; decide
  · simp [isDecimalDigit, h1.1, h1.2]

theorem skipSpace_digit (c : Char) (cs : List Char) (h : isDigit c) :
    skipSpace (c :: cs) = some (c :: cs) := by
  obtain ⟨h1, h2, -, -, -⟩ := isDigit_facts c h
  simp [skipSpace, h1, h2]

theorem skipSpace_minus (cs : List Char) : skipSpace ('-' :: cs) = some ('-' :: cs) := by
  have h2 : isSpace '-' = false := by decide
  simp [skipSpace, h2]

theorem scanNumber_digits (l : List Char) (hne : l ≠ []) (hall : ∀ c ∈ l, isDigit c) :
    scanNumber l = some l := by
  have ht : l.takeWhile isDecimalDigit = l :=
    List.takeWhile_eq_self_iff.2 (fun c hc => (isDigit_facts c (hall c hc)).2.2.2.2)
  unfold scanNumber
  rw [ht]
  cases l with
  | nil => exact absurd rfl hne
  | cons c cs => rfl

/-- On a non-empty digit string whose value fits, `ParseUint` returns the value. -/
theorem ParseUint_digits (l : List Char) (n : Nat) (hne : l ≠ [])
    (hval : parseDigits l 0 = some n) (hn : n < 2 ^ 64) : ParseUint l = some n := by
  cases l with
  | nil => exact absurd rfl hne
  | cons c cs => simp only [ParseUint, hval, hn, if_true]

theorem scanInt_nonneg (l : List Char) (n : Nat) (hne : l ≠ []) (hall : ∀ c ∈ l, isDigit c)
    (hval : parseDigits l 0 = some n) (hn : n < 2 ^ 63) : scanInt l = some (n : Int) := by
  cases l with
  | nil => exact absurd rfl hne
  | cons c cs =>
    have hc : isDigit c := hall c (List.mem_cons_self _ _)
    obtain ⟨-, -, hp, hm, -⟩ := isDigit_facts c hc
    have hu := ParseUint_digits (c :: cs) n hne hval (by omega)
    have hneg : (c == '-') = false := by simpa using hm
    have hlt : ¬ (2 ^ 63 ≤ n) := by omega
    simp only [scanInt, skipSpace_digit c cs hc, hp, hm, or_self, if_false,
      scanNumber_digits (c :: cs) hne hall, ParseInt, hu, hneg, hlt, and_false,
      Bool.false_eq_true, false_and]

theorem scanInt_neg (l : List Char) (n : Nat) (hne : l ≠ []) (hall : ∀ c ∈ l, isDigit c)
    (hval : parseDigits l 0 = some n) (hn : n ≤ 2 ^ 63) :
    scanInt ('-' :: l) = some (-(n : Int)) := by
  have hu := ParseUint_digits l n hne hval (by omega)
  have hlt : ¬ (2 ^ 63 < n) := by omega
  have hle : n ≤ 9223372036854775808 := by omega
  simp [scanInt, skipSpace_minus, scanNumber_digits l hne hall, ParseInt, hu, hlt, hle]

/-- Scanning the line written for an `int64` gives the identifier back. -/
theorem scanInt_formatInt64 (v : Int) (hv : isInt64 v) :
    scanInt (formatInt64 v).data = some v := by
  obtain ⟨hlo, hhi⟩ := hv
  have hne := fmtUnsigned_ne_nil v.natAbs v.natAbs []
  have hall := fmtUnsigned_digits (v.natAbs + 1) v.natAbs [] (by simp)
  have hval : parseDigits (fmtUnsigned (v.natAbs + 1) v.natAbs []) 0 = some v.natAbs := by
    rw [parseDigits_fmtUnsigned _ _ _ (Nat.lt_succ_self _)]; rfl
  unfold formatInt64
  by_cases hneg : v < 0
  · simp only [hneg, if_true]
    rw [scanInt_neg _ v.natAbs hne hall hval (by omega)]
    congr 1
    omega
  · simp only [hneg, if_false]
    rw [scanInt_nonneg _ v.natAbs hne hall hval (by omega)]
    congr 1
    omega

theorem skipSpace_idem (cs : List Char) :
    ∀ rest, skipSpace cs = some rest → skipSpace rest = some rest := by
  induction cs with
  | nil => intro rest h; simp [skipSpace] at h; subst h; rfl
  | cons c cs ih =>
    intro rest h
    unfold skipSpace at h
    by_cases h1 : c = '\n'
    · simp [h1] at h
    · by_cases h2 : isSpace c = true
      · simp only [h1, h2, if_false, if_true] at h
        exact ih rest h
      · simp only [h1, h2, if_false] at h
        cases h
        simp [skipSpace, h1, h2]

/-- The two `SkipSpace` calls of `doScanf` and `scanInt` act as one. -/
theorem Sscanf_d_eq (line : String) (d : Int) :
    Sscanf_d line d = (scanInt line.data).getD d := by
  unfold Sscanf_d
  cases hsk : skipSpace line.data with
  | none => simp [scanInt, hsk]
  | some cs =>
    have h2 := skipSpace_idem _ _ hsk
    have : scanInt cs = scanInt line.data := by
      unfold scanInt
      rw [h2, hsk]
    simp only [this]
    cases scanInt line.data <;> rfl

/-- The statement `fmt.Sscanf(line, "%d", &userID)` on the line written for an `int64`
stores that identifier. -/
theorem Sscanf_d_formatInt64 (v d : Int) (hv : isInt64 v) : Sscanf_d (formatInt64 v) d = v := by
  rw [Sscanf_d_eq, scanInt_formatInt64 v hv]
  rfl

theorem decodeLine_formatInt64 (v : Int) : decodeLine (formatInt64 v) = some v := by
  have hne := fmtUnsigned_ne_nil v.natAbs v.natAbs []
  have hall := fmtUnsigned_digits (v.natAbs + 1) v.natAbs [] (by simp)
  have hval : parseDigits (fmtUnsigned (v.natAbs + 1) v.natAbs []) 0 = some v.natAbs := by
    rw [parseDigits_fmtUnsigned _ _ _ (Nat.lt_succ_self _)]; rfl
  unfold formatInt64
  by_cases hneg : v < 0
  · simp only [hneg, if_true, decodeLine, hval]
    first | omega | (congr 1; omega)
  · simp only [hneg, if_false, decodeLine]
    cases hl : fmtUnsigned (v.natAbs + 1) v.natAbs [] with
    | nil => exact absurd hl hne
    | cons c cs =>
      have hc : isDigit c := hall c (by rw [hl]; exact List.mem_cons_self _ _)
      have hm : c ≠ '-' := (isDigit_facts c hc).2.2.2.1
      rw [hl] at hval
      split
      · rename_i rest heq
        simp only [List.cons.injEq] at heq
        exact absurd heq.1 hm
      · simp only [hval]
        first | omega | (congr 1; omega)

/-- Distinct identifiers are written as distinct lines. -/
theorem formatInt64_injective : Function.Injective formatInt64 := by
  intro a b h
  have ha := decodeLine_formatInt64 a
  rw [h, decodeLine_formatInt64 b] at ha
  exact (Option.some.inj ha).symm

/-! ## `saveUser` and `loadUsers` -/

theorem saveUser_of_mem (ok : Bool) (p : Proc) (id : Int) (h : id ∈ p.userIDs) :
    saveUser ok p id = p := by
  have : p.userIDs.any (fun x => x == id) = true := by
    simp only [List.any_eq_true, beq_iff_eq]
    exact ⟨id, h, rfl⟩
  simp only [saveUser, this, if_true]

theorem saveUser_userIDs_of_not_mem (ok : Bool) (p : Proc) (id : Int) (h : id ∉ p.userIDs) :
    (saveUser ok p id).userIDs = p.userIDs ++ [id] := by
  have : ¬ (p.userIDs.any (fun x => x == id) = true) := by
    simp only [List.any_eq_true, beq_iff_eq, not_exists, not_and]
    intro x hx hxe
    exact h (hxe ▸ hx)
  simp only [saveUser, this, if_false]
  cases ok <;> rfl

theorem saveUser_file_of_not_mem (ok : Bool) (p : Proc) (id : Int) (h : id ∉ p.userIDs) :
    (saveUser ok p id).file =
      if ok then some (logLines p.file ++ [formatInt64 id]) else p.file := by
  have : ¬ (p.userIDs.any (fun x => x == id) = true) := by
    simp only [List.any_eq_true, beq_iff_eq, not_exists, not_and]
    intro x hx hxe
    exact h (hxe ▸ hx)
  simp only [saveUser, this, if_false]
  cases ok <;> rfl

theorem mem_saveUser (ok : Bool) (p : Proc) (id x : Int) :
    x ∈ (saveUser ok p id).userIDs ↔ x ∈ p.userIDs ∨ x = id := by
  by_cases h : id ∈ p.userIDs
  · rw [saveUser_of_mem ok p id h]
    constructor
    · exact Or.inl
    · rintro (hx | rfl)
      · exact hx
      · exact h
  · rw [saveUser_userIDs_of_not_mem ok p id h]
    simp

theorem foldl_append_singleton {α β : Type} (f : α → β) (lines : List α) :
    ∀ init : List β,
      lines.foldl (fun acc line => acc ++ [f line]) init = init ++ lines.map f := by
  induction lines with
  | nil => intro init; simp
  | cons a l ih => intro init; simp [ih]

theorem loadUsers_userIDs (p : Proc) :
    (loadUsers true p).userIDs = p.userIDs ++ (logLines p.file).map (fun l => Sscanf_d l 0) := by
  unfold loadUsers logLines
  cases hf : p.file with
  | none => simp
  | some lines => simp [foldl_append_singleton]

theorem restartProc_userIDs (p : Proc) :
    (restartProc p).userIDs = (logLines p.file).map (fun l => Sscanf_d l 0) := by
  unfold restartProc
  rw [loadUsers_userIDs]
  rfl

theorem restartProc_file (p : Proc) : (restartProc p).file = p.file := by
  unfold restartProc loadUsers
  cases hf : p.file <;> simp [Proc.start]

theorem map_Sscanf_formatInt64 (ids : List Int) (h : ∀ i ∈ ids, isInt64 i) :
    (ids.map formatInt64).map (fun l => Sscanf_d l 0) = ids := by
  induction ids with
  | nil => rfl
  | cons a l ih =>
    simp only [List.map_cons]
    rw [Sscanf_d_formatInt64 a 0 (h a (List.mem_cons_self _ _)),
      ih (fun i hi => h i (List.mem_cons_of_mem _ hi))]

/-! ## Adding with every append succeeding -/

theorem synced_saveUser {p : Proc} (h : Synced p) (id : Int) : Synced (saveUser true p id) := by
  by_cases hm : id ∈ p.userIDs
  · rw [saveUser_of_mem true p id hm]; exact h
  · refine ⟨?_, ?_⟩
    · rw [saveUser_userIDs_of_not_mem true p id hm]
      exact List.Nodup.append h.1 (List.nodup_singleton _) (by simpa using hm)
    · rw [saveUser_userIDs_of_not_mem true p id hm, saveUser_file_of_not_mem true p id hm]
      have h2 := h.2
      simp only [logLines] at h2 ⊢
      simp [h2]

theorem synced_addAll (calls : List Int) : ∀ {p : Proc}, Synced p → Synced (addAll p calls) := by
  induction calls with
  | nil => intro p h; exact h
  | cons a l ih => intro p h; exact ih (synced_saveUser h a)

theorem mem_addAll (calls : List Int) (x : Int) :
    ∀ p : Proc, x ∈ (addAll p calls).userIDs ↔ x ∈ p.userIDs ∨ x ∈ calls := by
  induction calls with
  | nil => intro p; simp [addAll]
  | cons a l ih =>
    intro p
    have := ih (saveUser true p a)
    simp only [addAll, List.foldl_cons] at this ⊢
    rw [this, mem_saveUser, List.mem_cons]
    tauto

theorem synced_of_empty (p : Proc) (hreg : p.userIDs = []) (hlog : logLines p.file = []) :
    Synced p := by
  refine ⟨?_, ?_⟩
  · rw [hreg]; exact List.nodup_nil
  · rw [hreg, hlog]; rfl

/-! ## The registry lifecycle -/

theorem logInv_saveUser {p : Proc} (h : LogInv p) (ok : Bool) (id : Int) (hid : isInt64 id) :
    LogInv (saveUser ok p id) := by
  by_cases hm : id ∈ p.userIDs
  · rw [saveUser_of_mem ok p id hm]; exact h
  · obtain ⟨ids, hlines, hnd, hsub⟩ := h
    have hnot : id ∉ ids := fun hi => hm (hsub id hi).2
    cases ok with
    | true =>
      refine ⟨ids ++ [id], ?_, ?_, ?_⟩
      · rw [saveUser_file_of_not_mem true p id hm]
        simp only [logLines] at hlines
        simp [logLines, hlines]
      · exact List.Nodup.append hnd (List.nodup_singleton _) (by simpa using hnot)
      · intro i hi
        rw [mem_saveUser]
        rcases List.mem_append.1 hi with hi | hi
        · exact ⟨(hsub i hi).1, Or.inl (hsub i hi).2⟩
        · have : i = id := by simpa using hi
          subst this
          exact ⟨hid, Or.inr rfl⟩
    | false =>
      refine ⟨ids, ?_, hnd, ?_⟩
      · rw [saveUser_file_of_not_mem false p id hm]
        simpa using hlines
      · intro i hi
        rw [mem_saveUser]
        exact ⟨(hsub i hi).1, Or.inl (hsub i hi).2⟩

theorem nodup_saveUser {p : Proc} (h : p.userIDs.Nodup) (ok : Bool) (id : Int) :
    (saveUser ok p id).userIDs.Nodup := by
  by_cases hm : id ∈ p.userIDs
  · rw [saveUser_of_mem ok p id hm]; exact h
  · rw [saveUser_userIDs_of_not_mem ok p id hm]
    exact List.Nodup.append h (List.nodup_singleton _) (by simpa using hm)

theorem restartProc_inv {p : Proc} (h : LogInv p) :
    (restartProc p).userIDs.Nodup ∧ LogInv (restartProc p) := by
  obtain ⟨ids, hlines, hnd, hsub⟩ := h
  have hreg : (restartProc p).userIDs = ids := by
    rw [restartProc_userIDs, hlines]
    exact map_Sscanf_formatInt64 ids (fun i hi => (hsub i hi).1)
  refine ⟨hreg ▸ hnd, ids, ?_, hnd, ?_⟩
  · rw [restartProc_file]; exact hlines
  · intro i hi
    exact ⟨(hsub i hi).1, hreg ▸ hi⟩

theorem applyOp_inv {p : Proc} (h : p.userIDs.Nodup ∧ LogInv p) (op : Op) (hop : op.wellTyped) :
    (applyOp p op).userIDs.Nodup ∧ LogInv (applyOp p op) := by
  cases op with
  | add ok id => exact ⟨nodup_saveUser h.1 ok id, logInv_saveUser h.2 ok id hop⟩
  | restart => exact restartProc_inv h.2

theorem runOps_inv (ops : List Op) :
    ∀ {p : Proc}, (p.userIDs.Nodup ∧ LogInv p) → (∀ op ∈ ops, op.wellTyped) →
      (runOps p ops).userIDs.Nodup ∧ LogInv (runOps p ops) := by
  induction ops with
  | nil => intro p h _; exact h
  | cons a l ih =>
    intro p h hty
    exact ih (applyOp_inv h a (hty a (List.mem_cons_self _ _)))
      (fun op hop => hty op (List.mem_cons_of_mem _ hop))

theorem start_inv (file : Option (List String)) (hlog : logLines file = []) :
    (Proc.start file).userIDs.Nodup ∧ LogInv (Proc.start file) :=
  ⟨List.nodup_nil, [], by simpa [Proc.start] using hlog, List.nodup_nil, by simp⟩

theorem sendOne_fields (env : Env) (message : String) (p : Proc) (userID : Int) :
    (sendOne env message p userID).sent = p.sent ++ [(userID, message)] ∧
    (sendOne env message p userID).userIDs = p.userIDs ∧
    (sendOne env message p userID).file = p.file ∧
    (sendOne env message p userID).out.count LogLine.sentToAll =
      p.out.count LogLine.sentToAll := by
  unfold sendOne botSend
  cases env.send userID message <;> simp

theorem foldl_sendOne (env : Env) (message : String) (l : List Int) :
    ∀ p : Proc,
      (l.foldl (sendOne env message) p).sent = p.sent ++ l.map (fun id => (id, message)) ∧
      (l.foldl (sendOne env message) p).userIDs = p.userIDs ∧
      (l.foldl (sendOne env message) p).file = p.file ∧
      (l.foldl (sendOne env message) p).out.count LogLine.sentToAll =
        p.out.count LogLine.sentToAll := by
  induction l with
  | nil => intro p; simp
  | cons a l ih =>
    intro p
    obtain ⟨h1, h2, h3, h4⟩ := ih (sendOne env message p a)
    obtain ⟨g1, g2, g3, g4⟩ := sendOne_fields env message p a
    simp only [List.foldl_cons, List.map_cons]
    refine ⟨?_, ?_, ?_, ?_⟩
    · rw [h1, g1]; simp
    · rw [h2, g2]
    · rw [h3, g3]
    · rw [h4, g4]

theorem fanOuts_sendTelegramMessage (env : Env) (p : Proc) (message : String) :
    fanOuts (sendTelegramMessage env p message) = fanOuts p + 1 := by
  obtain ⟨-, -, -, h4⟩ := foldl_sendOne env message p.userIDs p
  simp only [fanOuts, sendTelegramMessage, List.count_append, h4]
  rfl

theorem fanOuts_mainIter (env : Env) (p : Proc) (now : Nat) :
    fanOuts (mainIter env p now).1 = fanOuts p + (if fires now then 1 else 0) := by
  unfold mainIter
  by_cases h : fires now = true
  · simp only [h, if_true]
    have := fanOuts_sendTelegramMessage env
      { p with out := p.out ++ [LogLine.currentTime (Hour now) (Minute now)] } env.schedule
    simp only [fanOuts, List.count_append] at this ⊢
    rw [this]
    simp [List.count_cons]
  · simp only [h, if_false]
    simp [fanOuts, List.count_cons]

theorem fanOuts_runTicks (env : Env) (ticks : List Nat) :
    ∀ p : Proc, fanOuts (runTicks env p ticks) = fanOuts p + ticks.countP fires := by
  induction ticks with
  | nil => intro p; simp [runTicks]
  | cons a l ih =>
    intro p
    have := ih (mainIter env p a).1
    simp only [runTicks, List.foldl_cons] at this ⊢
    rw [this, fanOuts_mainIter, List.countP_cons]
    by_cases h : fires a = true
    · simp [h]; omega
    · simp [h]

/-- The sleep of an iteration depends on the observed time only. -/
theorem mainIter_sleep (env : Env) (p : Proc) (now : Nat) :
    (mainIter env p now).2 = sleepAfter now := by
  unfold mainIter sleepAfter
  by_cases h : fires now = true <;> simp [h]

theorem fires_iff (now : Nat) :
    fires now = true ↔ 36000 ≤ now % 86400 ∧ now % 86400 < 36060 := by
  simp only [fires, Hour, Minute, Bool.and_eq_true, beq_iff_eq]
  omega

theorem laterPoll_trans {a b c : Nat} (h1 : laterPoll a b) (h2 : laterPoll b c) :
    laterPoll a c :=
  ⟨le_trans h1.1 h2.1, fun hf => le_trans (h1.2 hf) h2.1⟩

theorem idealPolls_chain (polls : List Nat) :
    idealPolls polls = true → List.Chain' (fun a b => a + sleepAfter a ≤ b) polls := by
  induction polls with
  | nil => intro _; exact List.chain'_nil
  | cons a l ih =>
    cases l with
    | nil => intro _; exact List.chain'_singleton a
    | cons b rest =>
      intro h
      simp only [idealPolls, Bool.and_eq_true, decide_eq_true_eq] at h
      exact List.chain'_cons.2 ⟨h.1, ih h.2⟩

theorem idealPolls_pairwise (polls : List Nat) (h : idealPolls polls = true) :
    polls.Pairwise laterPoll := by
  have hc : List.Chain' laterPoll polls := by
    refine List.Chain'.imp ?_ (idealPolls_chain polls h)
    intro a b hab
    unfold sleepAfter at hab
    refine ⟨?_, ?_⟩
    · split at hab <;> omega
    · intro hf
      simp only [hf, if_true] at hab
      omega
  haveI : IsTrans Nat laterPoll := ⟨fun _ _ _ => laterPoll_trans⟩
  exact List.chain'_iff_pairwise.1 hc

theorem laterPoll_dates {a b : Nat} (h : laterPoll a b) (ha : fires a = true)
    (hb : fires b = true) : dateOf a ≠ dateOf b := by
  have h91 := h.2 ha
  rw [fires_iff] at ha hb
  unfold dateOf
  omega

/-! ## Dispatch and firing polls -/

theorem countP_le_one_of_pairwise (D : Nat) (polls : List Nat)
    (h : polls.Pairwise (fun a b => fires a = true → fires b = true → dateOf a ≠ dateOf b)) :
    polls.countP (fun t => fires t && dateOf t == D) ≤ 1 := by
  induction polls with
  | nil => simp
  | cons a l ih =>
    rw [List.pairwise_cons] at h
    have ih := ih h.2
    rw [List.countP_cons]
    by_cases ha : (fires a && dateOf a == D) = true
    · have hz : l.countP (fun t => fires t && dateOf t == D) = 0 := by
        rw [List.countP_eq_zero]
        intro b hb hbD
        simp only [Bool.and_eq_true, beq_iff_eq] at ha hbD
        exact h.1 b hb ha.1 hbD.1 (ha.2.trans hbD.2.symm)
      simp [ha, hz]
    · simp only [ha, Bool.false_eq_true, if_false, Nat.add_zero]
      exact ih

theorem dispatch_directMessage (env : Env) (p : Proc) (s : Int) (text origText : String) :
    ∃ q, dispatch env p ((Event.directMessage s text).toUpdate origText) = some q ∧
      q.userIDs = (if text = "/start" then (saveUser env.appendOk p s).userIDs else p.userIDs) ∧
      q.file = (if text = "/start" then (saveUser env.appendOk p s).file else p.file) := by
  by_cases ht : text = "/start"
  · subst ht
    have hreg : (saveUser env.appendOk
        { p with out := p.out ++ [LogLine.received s "/start"] } s).userIDs =
        (saveUser env.appendOk p s).userIDs := by
      by_cases hm : s ∈ p.userIDs
      · rw [saveUser_of_mem _ p s hm, saveUser_of_mem _ _ s (by exact hm)]
      · rw [saveUser_userIDs_of_not_mem _ p s hm,
          saveUser_userIDs_of_not_mem _ _ s (by exact hm)]
    have hfile : (saveUser env.appendOk
        { p with out := p.out ++ [LogLine.received s "/start"] } s).file =
        (saveUser env.appendOk p s).file := by
      by_cases hm : s ∈ p.userIDs
      · rw [saveUser_of_mem _ p s hm, saveUser_of_mem _ _ s (by exact hm)]
      · rw [saveUser_file_of_not_mem _ p s hm, saveUser_file_of_not_mem _ _ s (by exact hm)]
    refine ⟨_, rfl, ?_, ?_⟩
    · simp only [Event.toUpdate, if_true, handleStart, botSend]
      split <;> exact hreg
    · simp only [Event.toUpdate, if_true, handleStart, botSend]
      split <;> exact hfile
  · refine ⟨_, rfl, ?_, ?_⟩ <;> simp [Event.toUpdate, ht, botSend]

theorem dispatch_callback (env : Env) (p : Proc) (s : Int) (action origText : String) :
    ∃ q, dispatch env p ((Event.callback s action).toUpdate origText) = some q ∧
      q.userIDs =
        (if action = "subscribe" then (saveUser env.appendOk p s).userIDs else p.userIDs) ∧
      q.file = (if action = "subscribe" then (saveUser env.appendOk p s).file else p.file) := by
  by_cases h1 : action = "get_schedule"
  · subst h1
    exact ⟨_, rfl, by simp [dispatch, Event.toUpdate, handleCallback, botSend],
      by simp [dispatch, Event.toUpdate, handleCallback, botSend]⟩
  · by_cases h2 : action = "subscribe"
    · subst h2
      exact ⟨_, rfl, by simp [dispatch, Event.toUpdate, handleCallback, botSend],
        by simp [dispatch, Event.toUpdate, handleCallback, botSend]⟩
    · by_cases h3 : action = "unsubscribe"
      · subst h3
        exact ⟨_, rfl, by simp [dispatch, Event.toUpdate, handleCallback, botSend],
          by simp [dispatch, Event.toUpdate, handleCallback, botSend]⟩
      · refine ⟨botSend p s "", ?_, ?_, ?_⟩ <;>
          simp [dispatch, Event.toUpdate, handleCallback, botSend, h1, h2, h3]

theorem saveUser_userIDs_ite (ok : Bool) (p : Proc) (id : Int) :
    (saveUser ok p id).userIDs = (if id ∉ p.userIDs then p.userIDs ++ [id] else p.userIDs) := by
  by_cases h : id ∈ p.userIDs
  · rw [saveUser_of_mem ok p id h]; simp [h]
  · rw [saveUser_userIDs_of_not_mem ok p id h]; simp [h]

theorem saveUser_file_ite (ok : Bool) (p : Proc) (id : Int) :
    (saveUser ok p id).file =
      (if id ∉ p.userIDs ∧ ok = true then some (logLines p.file ++ [formatInt64 id])
        else p.file) := by
  by_cases h : id ∈ p.userIDs
  · rw [saveUser_of_mem ok p id h]; simp [h]
  · rw [saveUser_file_of_not_mem ok p id h]; simp [h]

/-! ## The claims -/

/-- C1 (idempotent subscribe): after any sequence of `saveUser` calls whose appends all
succeed, started from an empty registry and an empty log, an identifier is registered
exactly when it occurs in the sequence, and the log holds exactly one line for it when it
occurs and none otherwise. -/
theorem C1_idempotent_subscribe (p : Proc) (hreg : p.userIDs = [])
    (hlog : logLines p.file = []) (calls : List Int) (id : Int) :
    (id ∈ (addAll p calls).userIDs ↔ id ∈ calls) ∧
    (logLines (addAll p calls).file).count (formatInt64 id) = (if id ∈ calls then 1 else 0) := by
  have hs := synced_addAll calls (synced_of_empty p hreg hlog)
  have hmem : id ∈ (addAll p calls).userIDs ↔ id ∈ calls := by
    rw [mem_addAll, hreg]; simp
  refine ⟨hmem, ?_⟩
  rw [hs.2, List.count_map_of_injective _ _ formatInt64_injective]
  by_cases h : id ∈ calls
  · simp only [h, if_true]
    exact List.count_eq_one_of_mem hs.1 (hmem.2 h)
  · simp only [h, if_false]
    exact List.count_eq_zero_of_not_mem (fun hc => h (hmem.1 hc))

/-- C1 at the calls 42, 7, 42, 42 on a process whose file does not exist yet. -/
theorem C1_idempotent_subscribe_witness :
    ((42 : Int) ∈ (addAll (Proc.start none) [42, 7, 42, 42]).userIDs ↔
      (42 : Int) ∈ [42, 7, 42, 42]) ∧
    (logLines (addAll (Proc.start none) [42, 7, 42, 42]).file).count (formatInt64 42) =
      (if (42 : Int) ∈ [42, 7, 42, 42] then 1 else 0) :=
  C1_idempotent_subscribe (Proc.start none) rfl rfl [42, 7, 42, 42] 42

/-- C3 (load skips malformed records) fails on the code: `loadUsers` appends the value of
`userID` after every `Sscanf`, so a line that does not scan adds the identifier 0. -/
theorem C3_malformed_line_adds_zero :
    (loadUsers true (Proc.start (some ["12", "abc", "", "-7"]))).userIDs = [12, 0, 0, -7] ∧
    (loadUsers true (Proc.start none)).userIDs = [] := by
  decide

/-- C5 (restart round trip): after any sequence of `saveUser` calls of `int64` identifiers
whose appends all succeed, started from an empty registry and an empty log, `loadUsers` on
the resulting file from an empty registry rebuilds the registry, in the same order. -/
theorem C5_restart_round_trip (p : Proc) (hreg : p.userIDs = [])
    (hlog : logLines p.file = []) (calls : List Int) (hint : ∀ id ∈ calls, isInt64 id) :
    (loadUsers true (Proc.start (addAll p calls).file)).userIDs = (addAll p calls).userIDs := by
  have hs := synced_addAll calls (synced_of_empty p hreg hlog)
  have hload := restartProc_userIDs (addAll p calls)
  unfold restartProc at hload
  rw [hload, hs.2]
  apply map_Sscanf_formatInt64
  intro i hi
  have := (mem_addAll calls i p).1 hi
  rw [hreg] at this
  exact hint i (by simpa using this)

/-- C5 at the calls -5, 3, -5 and the largest and smallest `int64`. -/
theorem C5_restart_round_trip_witness :
    (loadUsers true (Proc.start (addAll (Proc.start (some []))
        [-5, 3, -5, 9223372036854775807, -9223372036854775808]).file)).userIDs =
      (addAll (Proc.start (some []))
        [-5, 3, -5, 9223372036854775807, -9223372036854775808]).userIDs :=
  C5_restart_round_trip (Proc.start (some [])) rfl rfl
    [-5, 3, -5, 9223372036854775807, -9223372036854775808] (by decide)

/-- C6 (no duplicates over the lifecycle): in every state reached from an empty registry
and an empty log by `saveUser` calls of `int64` identifiers with succeeding or failing
appends and by restarts, the registry holds no identifier twice. -/
theorem C6_registry_nodup (file : Option (List String)) (hlog : logLines file = [])
    (ops : List Op) (hty : ∀ op ∈ ops, op.wellTyped) :
    (runOps (Proc.start file) ops).userIDs.Nodup :=
  (runOps_inv ops (start_inv file hlog) hty).1

/-- C6 at a lifecycle with a failed append, two restarts and repeated subscribes. -/
theorem C6_registry_nodup_witness :
    (runOps (Proc.start none)
      [Op.add true 5, Op.add false 6, Op.add true 5, Op.restart, Op.add true 6,
        Op.add true 6, Op.restart]).userIDs.Nodup :=
  C6_registry_nodup none rfl _ (by decide)

/-- C8 (append failure is not rolled back): when `saveUser` runs for an identifier that
is not registered and the file cannot be opened for append, the registry is the old one
with the identifier appended and the file is unchanged. -/
theorem C8_append_failure_keeps_insert (p : Proc) (id : Int) (h : id ∉ p.userIDs) :
    (saveUser false p id).userIDs = p.userIDs ++ [id] ∧ (saveUser false p id).file = p.file :=
  ⟨saveUser_userIDs_of_not_mem false p id h, by
    rw [saveUser_file_of_not_mem false p id h]; rfl⟩

/-- C8 at the registry 1, 2 and the new identifier 3. -/
theorem C8_append_failure_keeps_insert_witness :
    (saveUser false ⟨[1, 2], some ["1", "2"], [], []⟩ 3).userIDs = [1, 2] ++ [3] ∧
    (saveUser false ⟨[1, 2], some ["1", "2"], [], []⟩ 3).file = some ["1", "2"] :=
  C8_append_failure_keeps_insert ⟨[1, 2], some ["1", "2"], [], []⟩ 3 (by decide)

/-- C2 as the code has it: the trigger step keeps no memory of earlier ticks, so over any
sequence of poll ticks the number of fan-outs grows by the number of ticks whose time lies
in the 10:00 minute. -/
theorem C2_fanouts_count_trigger_ticks (env : Env) (p : Proc) (ticks : List Nat) :
    fanOuts (runTicks env p ticks) = fanOuts p + ticks.countP fires :=
  fanOuts_runTicks env ticks p

/-- C2 (at most one broadcast per day) fails on the code: the ticks 09:59:30, 10:00:00,
10:00:30 and 10:01:00 lie on one date and two fan-outs occur. -/
theorem C2_two_fanouts_in_one_day :
    (∀ t ∈ scenarioTicks, dateOf t = 0) ∧
    scenarioTicks.map (fun t => (Hour t, Minute t)) = [(9, 59), (10, 0), (10, 0), (10, 1)] ∧
    fanOuts (runTicks failsForTwo ⟨[1, 2, 3], none, [], []⟩ scenarioTicks) = 2 ∧
    ¬ fanOuts (runTicks failsForTwo ⟨[1, 2, 3], none, [], []⟩ scenarioTicks) ≤ 1 := by
  have h : fanOuts (runTicks failsForTwo ⟨[1, 2, 3], none, [], []⟩ scenarioTicks) = 2 := by
    rw [fanOuts_runTicks]; decide
  refine ⟨by decide, by decide, h, ?_⟩
  rw [h]; decide

/-- C4 (fan-out completeness under partial failure): whatever the gateway answers,
`sendTelegramMessage` makes exactly one send per registry entry, in registry order and with
the given text, and leaves the registry as it was. -/
theorem C4_fanout_attempts_all (env : Env) (p : Proc) (message : String) :
    (sendTelegramMessage env p message).sent =
      p.sent ++ p.userIDs.map (fun id => (id, message)) ∧
    (sendTelegramMessage env p message).userIDs = p.userIDs := by
  obtain ⟨h1, h2, -, -⟩ := foldl_sendOne env message p.userIDs p
  exact ⟨h1, h2⟩

/-- C7 (which events mutate the registry): dispatching an event always completes; the
registry changes only for the text `/start` or the action `subscribe`, and then only by
appending the sender when absent; the file changes only when, in addition, the append
succeeds, and then by one line for the sender. -/
theorem C7_dispatch_frame (env : Env) (p : Proc) (e : Event) (origText : String) :
    ∃ q, dispatch env p (e.toUpdate origText) = some q ∧
      q.userIDs =
        (if e.subscribes = true ∧ e.sender ∉ p.userIDs then p.userIDs ++ [e.sender]
          else p.userIDs) ∧
      q.file =
        (if e.subscribes = true ∧ e.sender ∉ p.userIDs ∧ env.appendOk = true
          then some (logLines p.file ++ [formatInt64 e.sender]) else p.file) := by
  cases e with
  | directMessage s text =>
    obtain ⟨q, hq, h1, h2⟩ := dispatch_directMessage env p s text origText
    refine ⟨q, hq, ?_, ?_⟩
    · rw [h1, saveUser_userIDs_ite]
      by_cases ht : text = "/start" <;> simp [Event.subscribes, Event.sender, ht]
    · rw [h2, saveUser_file_ite]
      by_cases ht : text = "/start" <;> simp [Event.subscribes, Event.sender, ht]
  | callback s action =>
    obtain ⟨q, hq, h1, h2⟩ := dispatch_callback env p s action origText
    refine ⟨q, hq, ?_, ?_⟩
    · rw [h1, saveUser_userIDs_ite]
      by_cases ht : action = "subscribe" <;> simp [Event.subscribes, Event.sender, ht]
    · rw [h2, saveUser_file_ite]
      by_cases ht : action = "subscribe" <;> simp [Event.subscribes, Event.sender, ht]

/-- C9 (sleep-based debounce under an ideal clock): when every poll is at least as late as
the previous poll plus the sleep of the previous iteration, every poll after a firing poll
is at least 91 seconds later and, if it fires too, lies on another date; so on each date at
most one poll fires. -/
theorem C9_one_firing_poll_per_date (polls : List Nat) (h : idealPolls polls = true) :
    polls.Pairwise (fun a b =>
      fires a = true → a + 91 ≤ b ∧ (fires b = true → dateOf a ≠ dateOf b)) ∧
    ∀ D : Nat, polls.countP (fun t => fires t && dateOf t == D) ≤ 1 := by
  have hp := idealPolls_pairwise polls h
  refine ⟨hp.imp (fun hab ha => ⟨hab.2 ha, fun hb => laterPoll_dates hab ha hb⟩), fun D => ?_⟩
  exact countP_le_one_of_pairwise D polls
    (hp.imp (fun hab ha hb => laterPoll_dates hab ha hb))

/-- C9 at polls around 10:00 of two consecutive dates. -/
theorem C9_one_firing_poll_per_date_witness :
    [clock 0 9 59 40, clock 0 10 0 10, clock 0 10 1 41, clock 1 10 0 59].Pairwise (fun a b =>
      fires a = true → a + 91 ≤ b ∧ (fires b = true → dateOf a ≠ dateOf b)) ∧
    ∀ D : Nat, [clock 0 9 59 40, clock 0 10 0 10, clock 0 10 1 41, clock 1 10 0 59].countP
      (fun t => fires t && dateOf t == D) ≤ 1 :=
  C9_one_firing_poll_per_date _ (by decide)

end TgBot
